import Mathlib

/-!
Verification of the CodingAgent repository: a conversational CLI agent
(`src/main.py`) exposing file-system tools to a remote chat model, plus
seven standalone tool modules under `src/tools/`.

The file system is modelled as a finite map from path strings to file
contents together with a set of existing directories and a set of paths
whose open-for-read raises an OS error.  Python exceptions are modelled
by an `Except PyExc` result: `Except.error` is a raised exception,
`Except.ok` a normal return.  Python library functions used by the
source (`os.path.dirname`, `os.makedirs`, `os.listdir`, `str.replace`,
the `in` substring test, `sorted`) are given executable models that
follow their documented behaviour.
-/

/-- Python exception values raised by the file operations the source uses. -/
inductive PyExc where
  | fileNotFoundError (path : String)
  | isADirectoryError (path : String)
  | notADirectoryError (path : String)
  | permissionError (path : String)
  | keyError (key : String)
deriving DecidableEq

/-- Rendering of an exception, as Python `str(e)` would produce. -/
def PyExc.toMessage : PyExc → String
  | .fileNotFoundError p => "[Errno 2] No such file or directory: \x27" ++ p ++ "\x27"
  | .isADirectoryError p => "[Errno 21] Is a directory: \x27" ++ p ++ "\x27"
  | .notADirectoryError p => "[Errno 20] Not a directory: \x27" ++ p ++ "\x27"
  | .permissionError p => "[Errno 13] Permission denied: \x27" ++ p ++ "\x27"
  | .keyError k => "\x27" ++ k ++ "\x27"

/-- Model of `os.path.dirname` (posixpath): everything up to the last slash,
with trailing slashes stripped unless the head is empty or all slashes. -/
def dirname (p : String) : String :=
  let cs := p.toList
  let head := (cs.reverse.dropWhile (fun c => ¬ c = '/')).reverse
  if head = [] ∨ head.all (fun c => c = '/') then String.mk head
  else String.mk ((head.reverse.dropWhile (fun c => c = '/')).reverse)

/-- Model of `os.path.basename`: everything after the last slash. -/
def basename (p : String) : String :=
  String.mk ((p.toList.reverse.takeWhile (fun c => ¬ c = '/')).reverse)

/-- Model of `os.path.join p item` for a non-absolute second component. -/
def pathJoin (p item : String) : String :=
  if p = "" then item
  else if p.toList.getLast? = some '/' then p ++ item
  else p ++ "/" ++ item

/-- Splitting a character list at every occurrence of `sep`, as Python
`str.split(sep)` and `String.splitOn` do for a one-character separator. -/
def splitOnSep (sep : Char) : List Char → List (List Char)
  | [] => [[]]
  | c :: rest =>
    let r := splitOnSep sep rest
    if c = sep then [] :: r
    else
      match r with
      | [] => [[c]]
      | g :: gs => (c :: g) :: gs

/-- Joining strings with a separator, as Python `sep.join` does. -/
def joinSep (sep : String) : List String → String
  | [] => ""
  | [s] => s
  | s :: rest => s ++ sep ++ joinSep sep rest

/-- The chain of directories `os.makedirs d` brings into existence:
every nonempty initial segment of the slash-separated components of `d`. -/
def pathChain (d : String) : List String :=
  let parts := (splitOnSep '/' d.toList).map String.mk
  ((List.range parts.length).map
    (fun i => joinSep "/" (parts.take (i + 1)))).filter (fun s => ¬ s = "")

/-- Model of Python `str.lower` (character-wise). -/
def lowerStr (s : String) : String :=
  String.mk (s.toList.map Char.toLower)

/-- Model of the real file system: file contents, existing directories and
paths whose open-for-read raises an OS error. -/
structure FS where
  files : List (String × String)
  dirs : List String
  unreadable : List String
deriving DecidableEq

/-- Content of the file at `p`, when a file exists there. -/
def FS.fileContent (fs : FS) (p : String) : Option String :=
  fs.files.lookup p

/-- Model of `os.path.isdir`. -/
def FS.isDir (fs : FS) (p : String) : Bool :=
  fs.dirs.contains p

/-- Model of `os.path.exists`. -/
def FS.existsPath (fs : FS) (p : String) : Bool :=
  (fs.fileContent p).isSome || fs.isDir p

/-- Model of `open(p).read()`: raises on a directory, a missing file, or an
unreadable file, otherwise returns the content. -/
def FS.openRead (fs : FS) (p : String) : Except PyExc String :=
  if fs.isDir p then .error (.isADirectoryError p)
  else
    match fs.fileContent p with
    | none => .error (.fileNotFoundError p)
    | some c => if fs.unreadable.contains p then .error (.permissionError p) else .ok c

/-- Model of `open(p, "w").write(c)`: the whole content is written in one step. -/
def FS.writeFile (fs : FS) (p c : String) : FS :=
  { fs with files := (p, c) :: fs.files.filter (fun q => ¬ q.1 = p) }

/-- Model of `os.makedirs(d, exist_ok=True)`. -/
def FS.makedirs (fs : FS) (d : String) : FS :=
  { fs with dirs := pathChain d ++ fs.dirs }

/-- Name of an immediate child of directory `p` realised by path `q`, if any. -/
def childName (p q : String) : Option String :=
  let pre := (p ++ "/").toList
  let ql := q.toList
  if pre.isPrefixOf ql then
    let n := ql.drop pre.length
    if ¬ n = [] ∧ ¬ n.contains '/' then some (String.mk n) else none
  else none

/-- Model of `os.listdir p`: the names of the immediate children of `p`. -/
def FS.listdir (fs : FS) (p : String) : List String :=
  ((fs.files.map Prod.fst ++ fs.dirs).filterMap (childName p)).dedup

/-- Paths of the files below directory `d`, as `os.walk` visits them. -/
def FS.walkFiles (fs : FS) (d : String) : List String :=
  (fs.files.map Prod.fst).filter (fun p => (d ++ "/").toList.isPrefixOf p.toList)

/-- Lexicographic comparison of character lists by code point, the order
Python `sorted` uses on strings. -/
def charListLe : List Char → List Char → Bool
  | [], _ => true
  | _ :: _, [] => false
  | a :: as, b :: bs => if a = b then charListLe as bs else decide (a < b)

/-- Lexicographic comparison of strings by code point. -/
def strLe (a b : String) : Bool :=
  charListLe a.toList b.toList

/-- Model of Python `sorted` on strings: the sorted permutation of the input
under the lexicographic order. -/
def sortStrings (l : List String) : List String :=
  List.insertionSort (fun a b => strLe a b = true) l

/-- Model of the Python substring test `pat in s` on character lists. -/
def containsSub (pat : List Char) : List Char → Bool
  | [] => pat.isEmpty
  | c :: rest => pat.isPrefixOf (c :: rest) || containsSub pat rest

/-- The left-to-right scan of Python `str.replace`, replacing every
non-overlapping occurrence of `pat` (nonempty) by `rep`.  The first
argument bounds the number of scan steps; it is instantiated with the
length of the scanned list, which the scan never exceeds. -/
def scanReplace (pat rep : List Char) : Nat → List Char → List Char
  | _, [] => []
  | 0, s => s
  | f + 1, c :: rest =>
    if ¬ pat = [] ∧ pat.isPrefixOf (c :: rest) then
      rep ++ scanReplace pat rep f (rest.drop (pat.length - 1))
    else
      c :: scanReplace pat rep f rest

/-- Replacement of every non-overlapping occurrence of `pat` (nonempty) by
`rep`, scanning left to right, as Python `str.replace` does. -/
def replaceChars (pat rep s : List Char) : List Char :=
  scanReplace pat rep s.length s

/-- The scan counting non-overlapping occurrences, fuelled like
`scanReplace`. -/
def scanCount (pat : List Char) : Nat → List Char → Nat
  | _, [] => 0
  | 0, _ => 0
  | f + 1, c :: rest =>
    if ¬ pat = [] ∧ pat.isPrefixOf (c :: rest) then
      1 + scanCount pat f (rest.drop (pat.length - 1))
    else
      scanCount pat f rest

/-- Number of non-overlapping occurrences of `pat` (nonempty) found by the
left-to-right scan, as Python `str.count` computes it. -/
def countOccs (pat s : List Char) : Nat :=
  scanCount pat s.length s

/-- Model of Python `s.replace(old, new)`, including the empty-pattern case
where the replacement is inserted before every character and at the end. -/
def pyReplace (s old new : String) : String :=
  if old.toList = [] then
    String.mk (new.toList ++ (s.toList.map (fun c => c :: new.toList)).flatten)
  else
    String.mk (replaceChars old.toList new.toList s.toList)

/-- Tag line for one directory entry, as `src/tools/list_files.py` formats it. -/
def entryTag (fs : FS) (p item : String) : String :=
  if fs.isDir (pathJoin p item) then "[DIR]  " ++ item ++ "/" else "[FILE] " ++ item

/-- Embedding of `read_file` from `src/tools/read_file.py`.  The source has no
exception handling, so any error raised by `open` propagates to the caller. -/
def read_file (fs : FS) (path : String) : Except PyExc String :=
  match fs.openRead path with
  | .error e => .error e
  | .ok content => .ok ("File contents of " ++ path ++ ":\n" ++ content)

/-- Embedding of `list_files` from `src/tools/list_files.py`.  The source has
no exception handling; `os.listdir` on a non-directory raises. -/
def list_files (fs : FS) (path : String) : Except PyExc String :=
  if ¬ fs.existsPath path then .ok ("Path not found: " ++ path)
  else if ¬ fs.isDir path then .error (.notADirectoryError path)
  else
    let items := (sortStrings (fs.listdir path)).map (fun item => entryTag fs path item)
    if items = [] then .ok ("Empty directory: " ++ path)
    else .ok ("Contents of " ++ path ++ ":\n" ++ joinSep "\n" items)

/-- Embedding of `edit_file` from `src/tools/edit_file.py`: parent directories
are created first; with a nonempty `old_text` and an existing `path` the file
is read and every occurrence of `old_text` replaced (failing when absent);
otherwise the file is created or overwritten with `new_text`.  The source has
no exception handling, so open errors propagate. -/
def edit_file (fs : FS) (path new_text old_text : String) : Except PyExc (String × FS) :=
  let dir_name := dirname path
  let fs1 := if ¬ dir_name = "" then fs.makedirs dir_name else fs
  if fs1.existsPath path ∧ ¬ old_text = "" then
    match fs1.openRead path with
    | .error e => .error e
    | .ok content =>
      if ¬ containsSub old_text.toList content.toList then
        .ok ("Text not found in " ++ path ++ ": " ++ old_text, fs1)
      else
        .ok ("Successfully edited " ++ path,
             fs1.writeFile path (pyReplace content old_text new_text))
  else
    if fs1.isDir path then .error (.isADirectoryError path)
    else .ok ("Successfully wrote " ++ path, fs1.writeFile path new_text)

/-- Embedding of `move_file` from `src/tools/move_file.py`. -/
def move_file (fs : FS) (source_path destination_path : String) : String × FS :=
  if ¬ fs.existsPath source_path then
    ("Source file not found: " ++ source_path, fs)
  else if fs.isDir source_path then
    ("Source is a directory, not a file: " ++ source_path, fs)
  else
    let dest_dir := dirname destination_path
    let fs1 := if ¬ dest_dir = "" then fs.makedirs dest_dir else fs
    match fs1.fileContent source_path with
    | none =>
      ("Error moving " ++ source_path ++ " to " ++ destination_path ++ ": missing source", fs1)
    | some c =>
      ("Successfully moved " ++ source_path ++ " to " ++ destination_path,
       ({ fs1 with files := fs1.files.filter (fun q => ¬ q.1 = source_path) }).writeFile
         destination_path c)

/-- The filter applied to each walked file by `src/tools/search_file.py`:
extension check on the base name, unreadable files silently skipped,
case-insensitive substring match on the decoded content. -/
def searchMatch (fs : FS) (search_text : String) (file_extension : Option String)
    (fp : String) : Bool :=
  (match file_extension with
   | some ext => ext = "" || ext.toList.isSuffixOf (basename fp).toList
   | none => true)
  && ¬ fs.unreadable.contains fp
  && containsSub (lowerStr search_text).toList (lowerStr ((fs.fileContent fp).getD "")).toList

/-- Matching paths collected by the walk in `src/tools/search_file.py`. -/
def searchResults (fs : FS) (directory search_text : String)
    (file_extension : Option String) : List String :=
  (fs.walkFiles directory).filter (searchMatch fs search_text file_extension)

/-- Embedding of `search_file` from `src/tools/search_file.py`. -/
def search_file (fs : FS) (directory search_text : String)
    (file_extension : Option String) : String :=
  if ¬ fs.existsPath directory then "Directory not found: " ++ directory
  else if ¬ fs.isDir directory then "Path is not a directory: " ++ directory
  else
    let results := searchResults fs directory search_text file_extension
    if results = [] then
      "No files found containing \x27" ++ search_text ++ "\x27 in " ++ directory
    else
      "Files containing \x27" ++ search_text ++ "\x27:\n" ++ joinSep "\n" results

/-- Embedding of `AIAgent._read_file` from `src/main.py`: the same body as the
standalone tool but wrapped in try/except, so it always returns a string. -/
def agentReadFile (fs : FS) (path : String) : String :=
  match fs.openRead path with
  | .ok content => "File contents of " ++ path ++ ":\n" ++ content
  | .error (.fileNotFoundError _) => "File not found: " ++ path
  | .error e => "Error reading file: " ++ e.toMessage

/-- Embedding of `AIAgent._list_files` from `src/main.py` (its tags differ
from the standalone tool: no trailing slash on directories). -/
def agentListFiles (fs : FS) (path : String) : String :=
  if ¬ fs.existsPath path then "Path not found: " ++ path
  else if ¬ fs.isDir path then
    "Error listing files: " ++ (PyExc.notADirectoryError path).toMessage
  else
    let items := (sortStrings (fs.listdir path)).map (fun item =>
      (if fs.isDir (pathJoin path item) then "[DIR] " else "[FILE] ") ++ item)
    if items = [] then "Empty directory: " ++ path
    else "Contents of " ++ path ++ ":\n" ++ joinSep "\n" items

/-- Embedding of `AIAgent._edit_file` from `src/main.py`: replace branch when
the path exists and `old_text` is nonempty, otherwise create/overwrite with
parent directories made on demand; all errors become strings. -/
def agentEditFile (fs : FS) (path old_text new_text : String) : String × FS :=
  if fs.existsPath path ∧ ¬ old_text = "" then
    match fs.openRead path with
    | .error e => ("Error editing file: " ++ e.toMessage, fs)
    | .ok content =>
      if ¬ containsSub old_text.toList content.toList then
        ("Text not found in file: " ++ old_text, fs)
      else if fs.isDir path then
        ("Error editing file: " ++ (PyExc.isADirectoryError path).toMessage, fs)
      else
        ("Successfully written to " ++ path,
         fs.writeFile path (pyReplace content old_text new_text))
  else
    let dir_name := dirname path
    let fs1 := if ¬ dir_name = "" then fs.makedirs dir_name else fs
    if fs1.isDir path then
      ("Error editing file: " ++ (PyExc.isADirectoryError path).toMessage, fs1)
    else
      ("Successfully written to " ++ path, fs1.writeFile path new_text)

/-- A registry entry, as the `Tool` pydantic model in `src/main.py` (the JSON
parameter schema is not referenced by any claim and is omitted). -/
structure RegisteredTool where
  name : String
  description : String
deriving DecidableEq

/-- Embedding of `AIAgent._setup_tools` from `src/main.py`: the eight tools
advertised to the remote model, in source order. -/
def setup_tools : List RegisteredTool :=
  [⟨"read_file", "Read the contents of a file at the specified path"⟩,
   ⟨"list_files", "List all files and directories in the specified path"⟩,
   ⟨"edit_file",
    "Edit a file by replacing old_text with new_text. Creates the file if it doesn\x27t exist."⟩,
   ⟨"delete_file", "Delete a file or directory at the specified path"⟩,
   ⟨"create_directory", "Create a directory at the specified path"⟩,
   ⟨"copy_file", "Copy a file from source to destination"⟩,
   ⟨"move_file", "Move or rename a file from source to destination"⟩,
   ⟨"search_file", "Search for files containing specific text"⟩]

/-- Names advertised by the registry. -/
def registryNames : List String :=
  setup_tools.map (fun t => t.name)

/-- Embedding of `AIAgent._execute_tool` from `src/main.py`: dispatch on the
tool name to the three inline implementations; a missing required argument
raises `KeyError`, caught by the surrounding try/except and rendered as an
error string; every other name falls through to "Unknown tool". -/
def execute_tool (fs : FS) (tool_name : String)
    (tool_input : List (String × String)) : String × FS :=
  if tool_name = "read_file" then
    match tool_input.lookup "path" with
    | none => ("Error executing read_file: " ++ (PyExc.keyError "path").toMessage, fs)
    | some p => (agentReadFile fs p, fs)
  else if tool_name = "list_files" then
    (agentListFiles fs ((tool_input.lookup "path").getD "."), fs)
  else if tool_name = "edit_file" then
    match tool_input.lookup "path" with
    | none => ("Error executing edit_file: " ++ (PyExc.keyError "path").toMessage, fs)
    | some p =>
      match tool_input.lookup "new_text" with
      | none => ("Error executing edit_file: " ++ (PyExc.keyError "new_text").toMessage, fs)
      | some nt => agentEditFile fs p ((tool_input.lookup "old_text").getD "") nt
  else
    ("Unknown tool: " ++ tool_name, fs)

/-- Role of a message in the conversation history. -/
inductive Role where
  | user
  | assistant
  | tool
deriving DecidableEq

instance {ε α : Type} [DecidableEq ε] [DecidableEq α] : DecidableEq (Except ε α) := fun x y =>
  match x, y with
  | .ok a, .ok b =>
    if h : a = b then isTrue (by rw [h]) else isFalse (by intro hc; cases hc; exact h rfl)
  | .error a, .error b =>
    if h : a = b then isTrue (by rw [h]) else isFalse (by intro hc; cases hc; exact h rfl)
  | .ok _, .error _ => isFalse (by intro hc; cases hc)
  | .error _, .ok _ => isFalse (by intro hc; cases hc)

/-- One tool invocation carried by an assistant message.  The raw JSON
argument string of the source is modelled by the outcome of `json.loads`
applied to it: either the decoded string-valued object, or the
`json.JSONDecodeError` message raised when the payload is malformed. -/
structure ToolCall where
  id : String
  name : String
  arguments : Except String (List (String × String))
deriving DecidableEq

/-- One entry of `AIAgent.messages`. -/
structure Message where
  role : Role
  content : Option String
  tool_calls : List ToolCall
  tool_call_id : Option String
deriving DecidableEq

/-- The user message appended at the start of a turn. -/
def userMsg (s : String) : Message :=
  ⟨Role.user, some s, [], none⟩

/-- A tool-result message, as built inside `AIAgent.chat`. -/
def toolMsg (id result : String) : Message :=
  ⟨Role.tool, some result, [], some id⟩

/-- One completion returned by the remote endpoint: the API always answers
with an assistant-role message, carrying optional text and tool calls. -/
structure AssistantTurn where
  content : Option String
  tool_calls : List ToolCall
deriving DecidableEq

/-- The assistant message appended verbatim to the history for a completion. -/
def AssistantTurn.toMessage (a : AssistantTurn) : Message :=
  ⟨Role.assistant, a.content, a.tool_calls, none⟩

/-- The body of the `for call in message.tool_calls` loop in `AIAgent.chat`:
each call has its arguments decoded by `json.loads` (a malformed payload
raises, which the model reports as `Except.error` carrying the exception,
after the side effects of the earlier calls of the batch have happened)
and is dispatched through `_execute_tool`; the collected tool-result
messages are returned together with the updated file system. -/
def processCalls : List ToolCall → FS → Except String (List Message) × FS
  | [], fs => (.ok [], fs)
  | call :: rest, fs =>
    match call.arguments with
    | .error e => (.error e, fs)
    | .ok args =>
      let r := execute_tool fs call.name args
      match processCalls rest r.2 with
      | (.ok more, fs2) => (.ok (toolMsg call.id r.1 :: more), fs2)
      | (.error e, fs2) => (.error e, fs2)

/-- The `while True` loop of `AIAgent.chat`.  The remote endpoint is modelled
by an oracle list of completions consumed one per round: `Except.error`
is a transport-level exception from the completion request, `Except.ok`
a returned assistant message.  An exhausted oracle stands for a transport
failure as well.  Any exception inside the `try` block is caught and the
turn ends with an "Error: ..." reply. -/
def runTurn : List (Except String AssistantTurn) → List Message → FS → String × List Message × FS
  | [], msgs, fs => ("Error: no response from endpoint", msgs, fs)
  | .error e :: _, msgs, fs => ("Error: " ++ e, msgs, fs)
  | .ok a :: rest, msgs, fs =>
    let msgs1 := msgs ++ [a.toMessage]
    if a.tool_calls = [] then
      (a.content.getD "", msgs1, fs)
    else
      match processCalls a.tool_calls fs with
      | (.error e, fs1) => ("Error: " ++ e, msgs1, fs1)
      | (.ok results, fs1) => runTurn rest (msgs1 ++ results) fs1

/-- Embedding of `AIAgent.chat` from `src/main.py`: append the user message,
then run completion rounds until a tool-call-free assistant message or an
exception ends the turn.  Returns the reply, the final history and the
final file system. -/
def chat (oracle : List (Except String AssistantTurn)) (msgs : List Message) (fs : FS)
    (user_input : String) : String × List Message × FS :=
  runTurn oracle (msgs ++ [userMsg user_input]) fs

/-- Correlation invariant of a history: scanning left to right while tracking
the tool-call ids of the most recent assistant message, every tool-result
message carries an id among those of the immediately preceding assistant
message. -/
def correlated : List Message → List String → Bool
  | [], _ => true
  | m :: rest, ids =>
    match m.role with
    | .assistant => correlated rest (m.tool_calls.map (fun c => c.id))
    | .tool =>
      (match m.tool_call_id with
       | some i => ids.contains i
       | none => false) && correlated rest ids
    | .user => correlated rest ids

/-- The tool-call ids in force after scanning a history segment. -/
def idsAfter : List Message → List String → List String
  | [], ids => ids
  | m :: rest, ids =>
    idsAfter rest (if m.role = Role.assistant then m.tool_calls.map (fun c => c.id) else ids)

theorem FS.fileContent_makedirs (fs : FS) (d p : String) :
    (fs.makedirs d).fileContent p = fs.fileContent p := rfl

theorem FS.unreadable_makedirs (fs : FS) (d : String) :
    (fs.makedirs d).unreadable = fs.unreadable := rfl

theorem FS.dirs_makedirs (fs : FS) (d : String) :
    (fs.makedirs d).dirs = pathChain d ++ fs.dirs := rfl

theorem FS.dirs_writeFile (fs : FS) (p c : String) :
    (fs.writeFile p c).dirs = fs.dirs := rfl

theorem FS.unreadable_writeFile (fs : FS) (p c : String) :
    (fs.writeFile p c).unreadable = fs.unreadable := rfl

theorem FS.fileContent_writeFile_self (fs : FS) (p c : String) :
    (fs.writeFile p c).fileContent p = some c := by
  simp [FS.writeFile, FS.fileContent]

theorem lookup_filter_ne (l : List (String × String)) (p q : String) (h : ¬ q = p) :
    (l.filter (fun r => ¬ r.1 = p)).lookup q = l.lookup q := by
  induction l with
  | nil => simp
  | cons a l ih =>
    obtain ⟨k, v⟩ := a
    by_cases ha : k = p
    · have hq : (q == k) = false := by
        rw [ha]
        exact beq_eq_false_iff_ne.mpr h
      have hf : ((k, v) :: l).filter (fun r => ¬ r.1 = p)
          = l.filter (fun r => ¬ r.1 = p) := by
        simp [List.filter_cons, ha]
      rw [hf, ih, List.lookup_cons, hq]
    · have hf : ((k, v) :: l).filter (fun r => ¬ r.1 = p)
          = (k, v) :: l.filter (fun r => ¬ r.1 = p) := by
        simp [List.filter_cons, ha]
      rw [hf, List.lookup_cons, List.lookup_cons]
      cases hqk : q == k
      · rw [ih]
      · rfl

theorem FS.fileContent_writeFile_ne (fs : FS) (p c q : String) (h : ¬ q = p) :
    (fs.writeFile p c).fileContent q = fs.fileContent q := by
  have hq : (q == p) = false := beq_eq_false_iff_ne.mpr h
  show ((p, c) :: fs.files.filter (fun r => ¬ r.1 = p)).lookup q = fs.files.lookup q
  rw [List.lookup_cons, hq, lookup_filter_ne _ _ _ h]

theorem containsSub_nil_pat (s : List Char) : containsSub [] s = true := by
  cases s <;> simp [containsSub, List.isPrefixOf]

theorem containsSub_append (pat a b : List Char) :
    containsSub pat (a ++ pat ++ b) = true := by
  induction a with
  | nil =>
    cases pat with
    | nil => exact containsSub_nil_pat b
    | cons p ps =>
      have hpre : (p :: ps).isPrefixOf ((p :: ps) ++ b) = true :=
        List.isPrefixOf_iff_prefix.mpr (List.prefix_append _ _)
      have hdef : containsSub (p :: ps) ([] ++ (p :: ps) ++ b)
          = ((p :: ps).isPrefixOf ((p :: ps) ++ b) || containsSub (p :: ps) (ps ++ b)) := rfl
      rw [hdef, hpre, Bool.true_or]
  | cons c a ih =>
    have hdef : containsSub pat ((c :: a) ++ pat ++ b)
        = (pat.isPrefixOf ((c :: a) ++ pat ++ b) || containsSub pat (a ++ pat ++ b)) := rfl
    rw [hdef, ih, Bool.or_true]

theorem scanReplace_of_count_zero (pat rep : List Char) (f : Nat) (s : List Char)
    (hf : s.length ≤ f) (h : scanCount pat f s = 0) : scanReplace pat rep f s = s := by
  induction f generalizing s with
  | zero =>
    have hs : s = [] := List.eq_nil_of_length_eq_zero (Nat.le_zero.mp hf)
    subst hs
    rfl
  | succ f ih =>
    cases s with
    | nil => rfl
    | cons c rest =>
      have hlen : rest.length ≤ f := by
        simp only [List.length_cons] at hf
        omega
      by_cases hc : ¬ pat = [] ∧ pat.isPrefixOf (c :: rest) = true
      · rw [scanCount, if_pos hc] at h
        omega
      · rw [scanCount, if_neg hc] at h
        rw [scanReplace, if_neg hc, ih rest hlen h]

theorem scanReplace_of_count_one (pat rep : List Char) (f : Nat) (s : List Char)
    (hpat : ¬ pat = []) (hf : s.length ≤ f) (h : scanCount pat f s = 1) :
    ∃ a b, s = a ++ pat ++ b ∧ scanReplace pat rep f s = a ++ rep ++ b := by
  induction f generalizing s with
  | zero =>
    have hs : s = [] := List.eq_nil_of_length_eq_zero (Nat.le_zero.mp hf)
    subst hs
    simp [scanCount] at h
  | succ f ih =>
    cases s with
    | nil => simp [scanCount] at h
    | cons c rest =>
      have hlen : rest.length ≤ f := by
        simp only [List.length_cons] at hf
        omega
      by_cases hc : ¬ pat = [] ∧ pat.isPrefixOf (c :: rest) = true
      · obtain ⟨t, ht⟩ := List.isPrefixOf_iff_prefix.mp hc.2
        cases pat with
        | nil => exact absurd rfl hpat
        | cons p0 ps =>
          have hc2 : p0 = c ∧ ps ++ t = rest := by
            have h2 := ht
            simp only [List.cons_append, List.cons.injEq] at h2
            exact ⟨h2.1, h2.2⟩
          have hdrop : rest.drop ((p0 :: ps).length - 1) = t := by
            rw [← hc2.2]
            simp [List.drop_left]
          rw [scanCount, if_pos hc, hdrop] at h
          have hz : scanCount (p0 :: ps) f t = 0 := by omega
          have htlen : t.length ≤ f := by
            have h3 : t.length ≤ rest.length := by
              rw [← hc2.2]
              simp
            omega
          refine ⟨[], t, ?_, ?_⟩
          · simp [← ht]
          · rw [scanReplace, if_pos hc, hdrop,
              scanReplace_of_count_zero _ rep f t htlen hz]
            simp
      · rw [scanCount, if_neg hc] at h
        obtain ⟨a, b, hab, hrepl⟩ := ih rest hlen h
        refine ⟨c :: a, b, by simp [hab], ?_⟩
        rw [scanReplace, if_neg hc, hrepl]
        simp

theorem countOccs_one_replace (pat rep s : List Char) (hpat : ¬ pat = [])
    (h : countOccs pat s = 1) :
    ∃ a b, s = a ++ pat ++ b ∧ replaceChars pat rep s = a ++ rep ++ b :=
  scanReplace_of_count_one pat rep s.length s hpat (Nat.le_refl _) h

theorem contains_false_of_not_mem (l : List String) (a : String) (h : ¬ a ∈ l) :
    l.contains a = false := by
  cases hb : l.contains a
  · rfl
  · exact absurd (List.elem_iff.mp hb) h

theorem toList_ne_nil_of_ne_empty (s : String) (h : ¬ s = "") : ¬ s.toList = [] := by
  intro hl
  exact h (String.toList_inj.mp (by simpa using hl))

theorem FS.isDir_makedirs_false (fs : FS) (d p : String)
    (h1 : ¬ p ∈ pathChain d) (h2 : fs.isDir p = false) :
    (fs.makedirs d).isDir p = false := by
  apply contains_false_of_not_mem
  intro hmem
  rcases List.mem_append.mp hmem with hm | hm
  · exact h1 hm
  · have : fs.dirs.contains p = true := List.elem_iff.mpr hm
    rw [FS.isDir] at h2
    rw [h2] at this
    cases this

/-- Claim C1, counterexample to the claim as stated: at the concrete
nonexistent path `missing.txt` on an empty file system, the standalone tool
`read_file` of `src/tools/read_file.py` does not return a not-found string:
it raises `FileNotFoundError` (modelled by the `Except.error` result), so
the claim that it never raises, and that every file tool catches all errors
internally, fails. -/
theorem c1_read_file_raises_counterexample :
    read_file ⟨[], [], []⟩ "missing.txt"
      = .error (.fileNotFoundError "missing.txt") := by decide

/-- Claim C1, amended: for every path that does not exist, the dispatcher
level `AIAgent._read_file` of `src/main.py` returns the not-found string and
never raises, while the standalone `read_file` of `src/tools/read_file.py`
raises `FileNotFoundError` instead of returning a string. -/
theorem c1_read_file_missing_path (fs : FS) (p : String)
    (h : fs.existsPath p = false) :
    agentReadFile fs p = "File not found: " ++ p ∧
    read_file fs p = .error (.fileNotFoundError p) := by
  rw [FS.existsPath, Bool.or_eq_false_iff] at h
  have h1 : fs.fileContent p = none := by
    cases hc : fs.fileContent p
    · rfl
    · rw [hc] at h
      simp at h
  have h2 : fs.isDir p = false := h.2
  have hor : fs.openRead p = .error (.fileNotFoundError p) := by
    rw [FS.openRead, h2, if_neg (by simp), h1]
  constructor
  · rw [agentReadFile, hor]
  · rw [read_file, hor]

/-- Claim C1, witness for the amended theorem at a concrete input. -/
theorem c1_read_file_missing_path_witness :
    FS.existsPath ⟨[("a", "x")], ["d"], []⟩ "nope" = false ∧
    (agentReadFile ⟨[("a", "x")], ["d"], []⟩ "nope" = "File not found: nope" ∧
     read_file ⟨[("a", "x")], ["d"], []⟩ "nope" = .error (.fileNotFoundError "nope")) :=
  ⟨by decide, c1_read_file_missing_path ⟨[("a", "x")], ["d"], []⟩ "nope" (by decide)⟩

/-- Claim C7: when the source path is an existing directory, `move_file`
returns the rejection string and the file system is returned completely
unchanged (the rejection happens before any destination directory is
created and before the move). -/
theorem c7_move_file_directory_rejected (fs : FS) (src dst : String)
    (h : fs.isDir src = true) :
    move_file fs src dst = ("Source is a directory, not a file: " ++ src, fs) := by
  have hex : fs.existsPath src = true := by
    rw [FS.existsPath, h, Bool.or_true]
  rw [move_file, if_neg (by simp [hex]), if_pos h]

/-- Claim C7, witness at a concrete directory. -/
theorem c7_move_file_directory_rejected_witness :
    FS.isDir ⟨[("f", "x")], ["d"], []⟩ "d" = true ∧
    move_file ⟨[("f", "x")], ["d"], []⟩ "d" "e"
      = ("Source is a directory, not a file: d", ⟨[("f", "x")], ["d"], []⟩) :=
  ⟨by decide, c7_move_file_directory_rejected ⟨[("f", "x")], ["d"], []⟩ "d" "e" (by decide)⟩

/-- Claim C10: `_execute_tool` implements only `read_file`, `list_files` and
`edit_file`; every other advertised name, including `delete_file`,
`create_directory`, `copy_file`, `move_file` and `search_file`, falls to
the "Unknown tool" reply with the file system untouched, even though the
registry built by `_setup_tools` advertises all eight names. -/
theorem c10_unknown_tool (fs : FS) (name : String) (input : List (String × String))
    (h1 : ¬ name = "read_file") (h2 : ¬ name = "list_files") (h3 : ¬ name = "edit_file") :
    execute_tool fs name input = ("Unknown tool: " ++ name, fs) ∧
    registryNames = ["read_file", "list_files", "edit_file", "delete_file",
      "create_directory", "copy_file", "move_file", "search_file"] := by
  refine ⟨?_, rfl⟩
  rw [execute_tool, if_neg h1, if_neg h2, if_neg h3]

/-- Claim C10, witness at the advertised but unimplemented `delete_file`. -/
theorem c10_unknown_tool_witness :
    (¬ "delete_file" = "read_file") ∧
    (execute_tool ⟨[("f", "x")], [], []⟩ "delete_file" [("path", "f")]
       = ("Unknown tool: delete_file", ⟨[("f", "x")], [], []⟩) ∧
     registryNames = ["read_file", "list_files", "edit_file", "delete_file",
       "create_directory", "copy_file", "move_file", "search_file"]) :=
  ⟨by decide, c10_unknown_tool ⟨[("f", "x")], [], []⟩ "delete_file" [("path", "f")]
    (by decide) (by decide) (by decide)⟩

theorem edit_file_create (fs : FS) (p new : String)
    (hmid : (if ¬ dirname p = "" then fs.makedirs (dirname p) else fs).isDir p = false) :
    edit_file fs p new ""
      = .ok ("Successfully wrote " ++ p,
          (if ¬ dirname p = "" then fs.makedirs (dirname p) else fs).writeFile p new) := by
  rw [edit_file]
  simp only []
  rw [if_neg (by simp), if_neg (by rw [hmid]; exact Bool.false_ne_true)]

/-- Claim C5: on a nonexistent path with empty `old_text`, `edit_file` of
`src/tools/edit_file.py` succeeds, the file afterwards holds exactly the new
content (the write is a single whole-content write, never partial), the whole
chain of missing parent directories exists afterwards, and no other file is
touched.  The side condition excludes degenerate all-slash paths that
coincide with one of their own parent directories. -/
theorem c5_edit_file_creates (fs : FS) (p new : String)
    (h : fs.existsPath p = false) (hp : ¬ p ∈ pathChain (dirname p)) :
    ∃ fs1, edit_file fs p new "" = .ok ("Successfully wrote " ++ p, fs1) ∧
      fs1.fileContent p = some new ∧
      (∀ d ∈ pathChain (dirname p), fs1.isDir d = true) ∧
      (∀ q, ¬ q = p → fs1.fileContent q = fs.fileContent q) := by
  have hdirF : fs.isDir p = false := by
    rw [FS.existsPath, Bool.or_eq_false_iff] at h
    exact h.2
  have hmid : (if ¬ dirname p = "" then fs.makedirs (dirname p) else fs).isDir p = false := by
    by_cases hd : ¬ dirname p = ""
    · rw [if_pos hd]
      exact FS.isDir_makedirs_false fs _ p hp hdirF
    · rw [if_neg hd]
      exact hdirF
  have hmidc : ∀ q, (if ¬ dirname p = "" then fs.makedirs (dirname p) else fs).fileContent q
      = fs.fileContent q := by
    intro q
    by_cases hd : ¬ dirname p = ""
    · rw [if_pos hd]
      rfl
    · rw [if_neg hd]
  have hchain : ∀ d ∈ pathChain (dirname p),
      (if ¬ dirname p = "" then fs.makedirs (dirname p) else fs).isDir d = true := by
    intro d hdm
    by_cases hd : ¬ dirname p = ""
    · rw [if_pos hd]
      show (pathChain (dirname p) ++ fs.dirs).contains d = true
      exact List.elem_iff.mpr (List.mem_append.mpr (Or.inl hdm))
    · exfalso
      rw [not_not] at hd
      rw [hd] at hdm
      simp [pathChain, splitOnSep, joinSep] at hdm
  refine ⟨_, edit_file_create fs p new hmid, ?_, ?_, ?_⟩
  · exact FS.fileContent_writeFile_self _ p new
  · intro d hdm
    show (if ¬ dirname p = "" then fs.makedirs (dirname p) else fs).isDir d = true
    exact hchain d hdm
  · intro q hq
    rw [FS.fileContent_writeFile_ne _ p new q hq]
    exact hmidc q

/-- Claim C5, witness: creating `d/f` on an empty file system. -/
theorem c5_edit_file_creates_witness :
    FS.existsPath ⟨[], [], []⟩ "d/f" = false ∧
    (¬ "d/f" ∈ pathChain (dirname "d/f")) ∧
    (∃ fs1, edit_file ⟨[], [], []⟩ "d/f" "hi" "" = .ok ("Successfully wrote d/f", fs1) ∧
      fs1.fileContent "d/f" = some "hi" ∧
      (∀ d ∈ pathChain (dirname "d/f"), fs1.isDir d = true) ∧
      (∀ q, ¬ q = "d/f" → fs1.fileContent q = FS.fileContent ⟨[], [], []⟩ q)) :=
  ⟨by decide, by decide,
   c5_edit_file_creates ⟨[], [], []⟩ "d/f" "hi" (by decide) (by decide)⟩

theorem edit_file_replace (fs : FS) (p new old content : String)
    (hold : ¬ old = "")
    (hc : fs.fileContent p = some content)
    (hdirm : (if ¬ dirname p = "" then fs.makedirs (dirname p) else fs).isDir p = false)
    (hur : ¬ p ∈ fs.unreadable)
    (hsub : containsSub old.toList content.toList = true) :
    edit_file fs p new old
      = .ok ("Successfully edited " ++ p,
          (if ¬ dirname p = "" then fs.makedirs (dirname p) else fs).writeFile p
            (pyReplace content old new)) := by
  have hcm : (if ¬ dirname p = "" then fs.makedirs (dirname p) else fs).fileContent p
      = some content := by
    by_cases hd : ¬ dirname p = ""
    · rw [if_pos hd]
      exact hc
    · rw [if_neg hd]
      exact hc
  have hum : (if ¬ dirname p = "" then fs.makedirs (dirname p) else fs).unreadable
      = fs.unreadable := by
    by_cases hd : ¬ dirname p = ""
    · rw [if_pos hd]
      rfl
    · rw [if_neg hd]
  have hopen : (if ¬ dirname p = "" then fs.makedirs (dirname p) else fs).openRead p
      = .ok content := by
    rw [FS.openRead, hdirm, hcm, hum]
    simp [hur]
  have hex : (if ¬ dirname p = "" then fs.makedirs (dirname p) else fs).existsPath p = true := by
    rw [FS.existsPath, hcm]
    rfl
  rw [edit_file]
  rw [if_pos (And.intro hex hold), hopen]
  simp [hsub]
  intro hcontra
  have hx : containsSub old.toList content.toList = false := hcontra
  rw [hsub] at hx
  exact absurd hx (by decide)

theorem edit_file_notfound (fs : FS) (p new old content : String)
    (hold : ¬ old = "")
    (hc : fs.fileContent p = some content)
    (hdirm : (if ¬ dirname p = "" then fs.makedirs (dirname p) else fs).isDir p = false)
    (hur : ¬ p ∈ fs.unreadable)
    (hsub : containsSub old.toList content.toList = false) :
    edit_file fs p new old
      = .ok ("Text not found in " ++ p ++ ": " ++ old,
          (if ¬ dirname p = "" then fs.makedirs (dirname p) else fs)) := by
  have hcm : (if ¬ dirname p = "" then fs.makedirs (dirname p) else fs).fileContent p
      = some content := by
    by_cases hd : ¬ dirname p = ""
    · rw [if_pos hd]
      exact hc
    · rw [if_neg hd]
      exact hc
  have hum : (if ¬ dirname p = "" then fs.makedirs (dirname p) else fs).unreadable
      = fs.unreadable := by
    by_cases hd : ¬ dirname p = ""
    · rw [if_pos hd]
      rfl
    · rw [if_neg hd]
  have hopen : (if ¬ dirname p = "" then fs.makedirs (dirname p) else fs).openRead p
      = .ok content := by
    rw [FS.openRead, hdirm, hcm, hum]
    simp [hur]
  have hex : (if ¬ dirname p = "" then fs.makedirs (dirname p) else fs).existsPath p = true := by
    rw [FS.existsPath, hcm]
    rfl
  rw [edit_file]
  rw [if_pos (And.intro hex hold), hopen]
  simp [hsub]
  intro hcontra
  have hx : containsSub old.toList content.toList = true := hcontra
  rw [hsub] at hx
  exact absurd hx (by decide)

/-- Claim C4, counterexample to the claim as stated: with content `x`
containing `x` exactly once, replacing `x` by `xy` succeeds, but running the
same edit a second time does not return a not-found failure: the replacement
reintroduced the old text, so the second run succeeds again (producing
`xyy`). -/
theorem c4_second_run_counterexample :
    countOccs "x".toList "x".toList = 1 ∧
    edit_file ⟨[("f", "x")], [], []⟩ "f" "xy" "x"
      = .ok ("Successfully edited f", ⟨[("f", "xy")], [], []⟩) ∧
    edit_file ⟨[("f", "xy")], [], []⟩ "f" "xy" "x"
      = .ok ("Successfully edited f", ⟨[("f", "xyy")], [], []⟩) := by decide

/-- Claim C4, amended: when the file content contains `old` exactly once
(in the sense of the left-to-right scan of Python `str.count`), `edit_file`
of `src/tools/edit_file.py` rewrites the file to the original content with
that single occurrence replaced by `new`; a second run with the same `old`
returns the not-found failure provided the rewritten content no longer
contains `old` (when `new` reintroduces `old`, as in the counterexample, the
second run succeeds instead).  The side conditions require `p` to be a real
readable file that is not one of its own parent directories. -/
theorem c4_edit_file_single_occurrence (fs : FS) (p old new content : String)
    (hc : fs.fileContent p = some content)
    (hdir : fs.isDir p = false)
    (hpc : ¬ p ∈ pathChain (dirname p))
    (hur : ¬ p ∈ fs.unreadable)
    (hold : ¬ old = "")
    (honce : countOccs old.toList content.toList = 1) :
    ∃ a b fs1,
      content.toList = a ++ old.toList ++ b ∧
      edit_file fs p new old = .ok ("Successfully edited " ++ p, fs1) ∧
      fs1.fileContent p = some (String.mk (a ++ new.toList ++ b)) ∧
      (containsSub old.toList (a ++ new.toList ++ b) = false →
        ∃ fs2, edit_file fs1 p new old
          = .ok ("Text not found in " ++ p ++ ": " ++ old, fs2) ∧
          fs2.fileContent p = fs1.fileContent p) := by
  have hpat : ¬ old.toList = [] := toList_ne_nil_of_ne_empty old hold
  obtain ⟨a, b, hab, hrep⟩ :=
    countOccs_one_replace old.toList new.toList content.toList hpat honce
  have hsub : containsSub old.toList content.toList = true := by
    rw [hab]
    exact containsSub_append _ _ _
  have hdirm : (if ¬ dirname p = "" then fs.makedirs (dirname p) else fs).isDir p = false := by
    by_cases hd : ¬ dirname p = ""
    · rw [if_pos hd]
      exact FS.isDir_makedirs_false fs _ p hpc hdir
    · rw [if_neg hd]
      exact hdir
  have hfirst := edit_file_replace fs p new old content hold hc hdirm hur hsub
  have hrepstr : pyReplace content old new = String.mk (a ++ new.toList ++ b) := by
    rw [pyReplace, if_neg hpat, hrep]
  refine ⟨a, b,
    (if ¬ dirname p = "" then fs.makedirs (dirname p) else fs).writeFile p
      (pyReplace content old new), hab, hfirst, ?_, ?_⟩
  · rw [hrepstr]
    exact FS.fileContent_writeFile_self _ _ _
  · intro hnc
    have hc1 : ((if ¬ dirname p = "" then fs.makedirs (dirname p) else fs).writeFile p
        (pyReplace content old new)).fileContent p = some (String.mk (a ++ new.toList ++ b)) := by
      rw [hrepstr]
      exact FS.fileContent_writeFile_self _ _ _
    have hdir1 : ((if ¬ dirname p = "" then fs.makedirs (dirname p) else fs).writeFile p
        (pyReplace content old new)).isDir p = false := hdirm
    have hur1 : ¬ p ∈ ((if ¬ dirname p = "" then fs.makedirs (dirname p) else fs).writeFile p
        (pyReplace content old new)).unreadable := by
      show ¬ p ∈ (if ¬ dirname p = "" then fs.makedirs (dirname p) else fs).unreadable
      by_cases hd : ¬ dirname p = ""
      · rw [if_pos hd]
        exact hur
      · rw [if_neg hd]
        exact hur
    have hdirm1 : (if ¬ dirname p = ""
        then (((if ¬ dirname p = "" then fs.makedirs (dirname p) else fs).writeFile p
          (pyReplace content old new)).makedirs (dirname p))
        else ((if ¬ dirname p = "" then fs.makedirs (dirname p) else fs).writeFile p
          (pyReplace content old new))).isDir p = false := by
      by_cases hd : ¬ dirname p = ""
      · rw [if_pos hd]
        exact FS.isDir_makedirs_false _ _ p hpc hdir1
      · rw [if_neg hd]
        exact hdir1
    have hsecond := edit_file_notfound
      ((if ¬ dirname p = "" then fs.makedirs (dirname p) else fs).writeFile p
        (pyReplace content old new)) p new old (String.mk (a ++ new.toList ++ b))
      hold hc1 hdirm1 hur1 hnc
    refine ⟨_, hsecond, ?_⟩
    rw [hc1]
    by_cases hd : ¬ dirname p = ""
    · rw [if_pos hd, FS.fileContent_makedirs, hc1]
    · rw [if_neg hd, hc1]

/-- Claim C4, witness for the amended theorem: replacing the single `b` in
`abc` by `Z`. -/
theorem c4_edit_file_single_occurrence_witness :
    FS.fileContent ⟨[("f", "abc")], [], []⟩ "f" = some "abc" ∧
    countOccs "b".toList "abc".toList = 1 ∧
    (∃ a b fs1,
      "abc".toList = a ++ "b".toList ++ b ∧
      edit_file ⟨[("f", "abc")], [], []⟩ "f" "Z" "b"
        = .ok ("Successfully edited f", fs1) ∧
      fs1.fileContent "f" = some (String.mk (a ++ "Z".toList ++ b)) ∧
      (containsSub "b".toList (a ++ "Z".toList ++ b) = false →
        ∃ fs2, edit_file fs1 "f" "Z" "b"
          = .ok ("Text not found in f: b", fs2) ∧
          fs2.fileContent "f" = fs1.fileContent "f")) :=
  ⟨by decide, by decide,
   c4_edit_file_single_occurrence ⟨[("f", "abc")], [], []⟩ "f" "b" "Z" "abc"
     (by decide) (by decide) (by decide) (by decide) (by decide) (by decide)⟩

/-- Claim C2, counterexample to the claim as stated: a turn whose assistant
message carries one tool call with a malformed JSON argument payload.  The
`json.loads` exception escapes to the turn-level handler: the turn is
aborted with an "Error: ..." reply, and no tool-result message at all is
appended to the history. -/
theorem c2_malformed_payload_counterexample :
    chat [.ok ⟨none, [⟨"call_1", "read_file",
        .error "Expecting value: line 1 column 1 (char 0)"⟩]⟩] [] ⟨[], [], []⟩ "hi"
      = ("Error: Expecting value: line 1 column 1 (char 0)",
         [userMsg "hi",
          AssistantTurn.toMessage ⟨none, [⟨"call_1", "read_file",
            .error "Expecting value: line 1 column 1 (char 0)"⟩]⟩],
         ⟨[], [], []⟩) ∧
    (chat [.ok ⟨none, [⟨"call_1", "read_file",
        .error "Expecting value: line 1 column 1 (char 0)"⟩]⟩] [] ⟨[], [], []⟩
        "hi").2.1.filter (fun m => m.role == Role.tool) = [] := by decide

theorem processCalls_error_batch (pfx : List ToolCall) (bad : ToolCall)
    (rest : List ToolCall) (fs : FS) (e : String)
    (hok : ∀ c ∈ pfx, ∃ a, c.arguments = Except.ok a)
    (hbad : bad.arguments = Except.error e) :
    processCalls (pfx ++ bad :: rest) fs = (.error e, (processCalls pfx fs).2) := by
  induction pfx generalizing fs with
  | nil =>
    rw [List.nil_append]
    simp [processCalls, hbad]
  | cons c pfx ih =>
    obtain ⟨args, harg⟩ := hok c (List.mem_cons_self _ _)
    have ih2 := ih (execute_tool fs c.name args).2
      (fun x hx => hok x (List.mem_cons_of_mem _ hx))
    cases hres : processCalls pfx (execute_tool fs c.name args).2 with
    | mk r2 f2 =>
      rw [hres] at ih2
      cases r2 with
      | error e2 => simp [processCalls, harg, ih2, hres]
      | ok more => simp [processCalls, harg, ih2, hres]

/-- Claim C2, amended: a dispatch-time exception inside a tool implementation
is caught by `_execute_tool` and its description is appended as a tool-result
message, after which the loop continues with the next completion; but a
malformed argument payload anywhere in a batch raises at `json.loads` inside
the turn-level `try`, so the turn is aborted with an "Error: ..." reply, no
tool-result message of that batch is appended (the results of the calls
executed before the malformed one are discarded), while the file-system
effects of those earlier calls persist. -/
theorem c2_failure_semantics (msgs : List Message) (fs : FS) (input : String)
    (rest : List (Except String AssistantTurn)) (call : ToolCall)
    (args : List (String × String)) (pfx : List ToolCall) (bad : ToolCall)
    (rest2 : List ToolCall) (e : String) :
    (call.arguments = .ok args →
      chat (.ok ⟨none, [call]⟩ :: rest) msgs fs input
        = runTurn rest
            (msgs ++ [userMsg input, AssistantTurn.toMessage ⟨none, [call]⟩,
              toolMsg call.id (execute_tool fs call.name args).1])
            (execute_tool fs call.name args).2) ∧
    ((∀ c ∈ pfx, ∃ a, c.arguments = Except.ok a) → bad.arguments = .error e →
      chat (.ok ⟨none, pfx ++ bad :: rest2⟩ :: rest) msgs fs input
        = ("Error: " ++ e,
           msgs ++ [userMsg input, AssistantTurn.toMessage ⟨none, pfx ++ bad :: rest2⟩],
           (processCalls pfx fs).2)) := by
  constructor
  · intro harg
    simp [chat, runTurn, processCalls, harg, AssistantTurn.toMessage]
  · intro hok hbad
    have hpc := processCalls_error_batch pfx bad rest2 fs e hok hbad
    have hne : ¬ (pfx ++ bad :: rest2 : List ToolCall) = [] := by simp
    simp [chat, runTurn, hne, hpc, AssistantTurn.toMessage]

/-- Claim C2, witness for the amended theorem.  First conjunct: a `read_file`
call whose decoded arguments lack the required `path` key raises `KeyError`
at dispatch; the error string is appended as a tool result and the turn goes
on to the next completion.  Second conjunct: a two-call batch whose first
call succeeds (creating file `f`) and whose second call is malformed; the
turn aborts with the decode error, no tool result is appended, and the final
third component shows the first call's file-system effect persisting, as the
extra evaluated conjunct makes explicit. -/
theorem c2_failure_semantics_witness :
    ((ToolCall.arguments ⟨"c0", "read_file", .ok []⟩ = .ok [] →
      chat (.ok ⟨none, [⟨"c0", "read_file", .ok []⟩]⟩ :: [.ok ⟨some "done", []⟩])
          [] ⟨[], [], []⟩ "go"
        = runTurn [.ok ⟨some "done", []⟩]
            ([] ++ [userMsg "go", AssistantTurn.toMessage ⟨none, [⟨"c0", "read_file", .ok []⟩]⟩,
              toolMsg "c0" (execute_tool ⟨[], [], []⟩ "read_file" []).1])
            (execute_tool ⟨[], [], []⟩ "read_file" []).2) ∧
     ((∀ c ∈ [(⟨"c1", "edit_file", .ok [("path", "f"), ("new_text", "hi")]⟩ : ToolCall)],
         ∃ a, c.arguments = Except.ok a) →
      ToolCall.arguments ⟨"c2", "edit_file", .error "Expecting value: line 1 column 1 (char 0)"⟩
        = .error "Expecting value: line 1 column 1 (char 0)" →
      chat (.ok ⟨none, [⟨"c1", "edit_file", .ok [("path", "f"), ("new_text", "hi")]⟩]
            ++ ⟨"c2", "edit_file", .error "Expecting value: line 1 column 1 (char 0)"⟩ :: []⟩
          :: [.ok ⟨some "done", []⟩]) [] ⟨[], [], []⟩ "go"
        = ("Error: Expecting value: line 1 column 1 (char 0)",
           [] ++ [userMsg "go",
             AssistantTurn.toMessage ⟨none,
               [⟨"c1", "edit_file", .ok [("path", "f"), ("new_text", "hi")]⟩]
               ++ ⟨"c2", "edit_file", .error "Expecting value: line 1 column 1 (char 0)"⟩ :: []⟩],
           (processCalls [⟨"c1", "edit_file", .ok [("path", "f"), ("new_text", "hi")]⟩]
             ⟨[], [], []⟩).2))) ∧
    (∀ c ∈ [(⟨"c1", "edit_file", .ok [("path", "f"), ("new_text", "hi")]⟩ : ToolCall)],
       ∃ a, c.arguments = Except.ok a) ∧
    (processCalls [⟨"c1", "edit_file", .ok [("path", "f"), ("new_text", "hi")]⟩]
       ⟨[], [], []⟩).2 = ⟨[("f", "hi")], [], []⟩ :=
  ⟨c2_failure_semantics [] ⟨[], [], []⟩ "go" [.ok ⟨some "done", []⟩]
     ⟨"c0", "read_file", .ok []⟩ []
     [⟨"c1", "edit_file", .ok [("path", "f"), ("new_text", "hi")]⟩]
     ⟨"c2", "edit_file", .error "Expecting value: line 1 column 1 (char 0)"⟩ []
     "Expecting value: line 1 column 1 (char 0)",
   by
     intro c hc
     simp only [List.mem_singleton] at hc
     subst hc
     exact ⟨[("path", "f"), ("new_text", "hi")], rfl⟩,
   by decide⟩

/-- A completion that keeps the tool loop going: an assistant message with a
nonempty batch of tool calls, all of whose argument payloads decode. -/
def keepsLooping (r : Except String AssistantTurn) : Prop :=
  ∃ a, r = .ok a ∧ ¬ a.tool_calls = [] ∧ ∀ c ∈ a.tool_calls, ∃ args, c.arguments = .ok args

theorem processCalls_ok_of_args (calls : List ToolCall) (fs : FS)
    (h : ∀ c ∈ calls, ∃ args, c.arguments = .ok args) :
    ∃ results fs1, processCalls calls fs = (.ok results, fs1) := by
  induction calls generalizing fs with
  | nil => exact ⟨[], fs, rfl⟩
  | cons call rest ih =>
    obtain ⟨args, harg⟩ := h call (List.mem_cons_self _ _)
    obtain ⟨results, fs1, hrest⟩ :=
      ih (execute_tool fs call.name args).2 (fun c hc => h c (List.mem_cons_of_mem _ hc))
    refine ⟨toolMsg call.id (execute_tool fs call.name args).1 :: results, fs1, ?_⟩
    simp [processCalls, harg, hrest]

theorem runTurn_reaches_error (pfx : List (Except String AssistantTurn)) (e : String)
    (rest : List (Except String AssistantTurn)) (msgs : List Message) (fs : FS)
    (h : ∀ r ∈ pfx, keepsLooping r) :
    (runTurn (pfx ++ .error e :: rest) msgs fs).1 = "Error: " ++ e ∧
    msgs <+: (runTurn (pfx ++ .error e :: rest) msgs fs).2.1 := by
  induction pfx generalizing msgs fs with
  | nil => exact ⟨rfl, List.prefix_refl _⟩
  | cons r pfx ih =>
    obtain ⟨a, hr, hcalls, hargs⟩ := h r (List.mem_cons_self _ _)
    subst hr
    obtain ⟨results, fs1, hpc⟩ := processCalls_ok_of_args a.tool_calls fs hargs
    have hrun : runTurn ((.ok a :: pfx) ++ .error e :: rest) msgs fs
        = runTurn (pfx ++ .error e :: rest) ((msgs ++ [a.toMessage]) ++ results) fs1 := by
      rw [List.cons_append, runTurn]
      simp only [if_neg hcalls, hpc]
    obtain ⟨h1, h2⟩ := ih ((msgs ++ [a.toMessage]) ++ results) fs1
      (fun x hx => h x (List.mem_cons_of_mem _ hx))
    rw [hrun]
    refine ⟨h1, List.IsPrefix.trans ?_ h2⟩
    rw [List.append_assoc]
    exact List.prefix_append _ _

/-- Claim C3: when the completion request of some round of a turn raises a
transport-level exception, the turn ends with the "Error: ..." string as its
reply, and the history accumulated before the failure, including the user
message appended at the start of the turn, survives as a prefix of the final
history, so the next turn can build on it.  The rounds before the failing
one are arbitrary successful tool-call rounds. -/
theorem c3_transport_failure (pfx : List (Except String AssistantTurn)) (e : String)
    (rest : List (Except String AssistantTurn)) (msgs : List Message) (fs : FS)
    (input : String) (h : ∀ r ∈ pfx, keepsLooping r) :
    (chat (pfx ++ .error e :: rest) msgs fs input).1 = "Error: " ++ e ∧
    (msgs ++ [userMsg input]) <+: (chat (pfx ++ .error e :: rest) msgs fs input).2.1 :=
  runTurn_reaches_error pfx e rest (msgs ++ [userMsg input]) fs h

/-- Claim C3, witness: the failure happens on the second round, after one
successful tool round; the reply is the error string and the history built
so far survives. -/
theorem c3_transport_failure_witness :
    (∀ r ∈ [Except.ok (⟨none, [⟨"c1", "list_files", .ok []⟩]⟩ : AssistantTurn)],
      keepsLooping r) ∧
    ((chat ([.ok ⟨none, [⟨"c1", "list_files", .ok []⟩]⟩] ++ .error "Connection error." :: [])
        [] ⟨[], ["d"], []⟩ "go").1 = "Error: Connection error." ∧
     ([] ++ [userMsg "go"]) <+:
       (chat ([.ok ⟨none, [⟨"c1", "list_files", .ok []⟩]⟩] ++ .error "Connection error." :: [])
         [] ⟨[], ["d"], []⟩ "go").2.1) :=
  ⟨by
    intro r hr
    simp only [List.mem_singleton] at hr
    subst hr
    exact ⟨_, rfl, by decide, by
      intro c hc
      simp only [List.mem_singleton] at hc
      subst hc
      exact ⟨[], rfl⟩⟩,
   c3_transport_failure [.ok ⟨none, [⟨"c1", "list_files", .ok []⟩]⟩] "Connection error." []
     [] ⟨[], ["d"], []⟩ "go" (by
      intro r hr
      simp only [List.mem_singleton] at hr
      subst hr
      exact ⟨_, rfl, by decide, by
        intro c hc
        simp only [List.mem_singleton] at hc
        subst hc
        exact ⟨[], rfl⟩⟩)⟩

theorem idsAfter_append (xs ys : List Message) (ids : List String) :
    idsAfter (xs ++ ys) ids = idsAfter ys (idsAfter xs ids) := by
  induction xs generalizing ids with
  | nil => rfl
  | cons m xs ih => simp [idsAfter, ih]

theorem correlated_append (xs ys : List Message) (ids : List String) :
    correlated (xs ++ ys) ids = (correlated xs ids && correlated ys (idsAfter xs ids)) := by
  induction xs generalizing ids with
  | nil => simp [correlated, idsAfter]
  | cons m xs ih =>
    cases hr : m.role
    · simp [correlated, idsAfter, hr, ih]
    · simp [correlated, idsAfter, hr, ih]
    · simp [correlated, idsAfter, hr, ih, Bool.and_assoc]

theorem processCalls_results_toolMsgs (calls : List ToolCall) (fs : FS)
    (results : List Message) (fs1 : FS)
    (h : processCalls calls fs = (.ok results, fs1)) :
    ∀ m ∈ results, m.role = Role.tool ∧ ∃ c ∈ calls, m.tool_call_id = some c.id := by
  induction calls generalizing fs results fs1 with
  | nil =>
    rw [processCalls] at h
    have h1 : ([] : List Message) = results := Except.ok.inj (congrArg Prod.fst h)
    intro m hm
    rw [← h1] at hm
    cases hm
  | cons call rest ih =>
    cases harg : call.arguments with
    | error e =>
      rw [processCalls] at h
      rw [harg] at h
      exact absurd (congrArg Prod.fst h) (by simp)
    | ok args =>
      rw [processCalls] at h
      simp only [harg] at h
      cases hrest : processCalls rest (execute_tool fs call.name args).2 with
      | mk r2 f2 =>
        rw [hrest] at h
        cases r2 with
        | error e2 =>
          simp only [] at h
          exact absurd (congrArg Prod.fst h) (by simp)
        | ok more =>
          simp only [] at h
          have h1 : toolMsg call.id (execute_tool fs call.name args).1 :: more = results :=
            Except.ok.inj (congrArg Prod.fst h)
          intro m hm
          rw [← h1] at hm
          cases hm with
          | head => exact ⟨rfl, call, List.mem_cons_self _ _, rfl⟩
          | tail _ hm2 =>
            obtain ⟨hrole, c, hcmem, hid⟩ := ih _ _ _ hrest m hm2
            exact ⟨hrole, c, List.mem_cons_of_mem _ hcmem, hid⟩

theorem correlated_of_results (results : List Message) (ids : List String)
    (h : ∀ m ∈ results, m.role = Role.tool ∧
      ∃ i, m.tool_call_id = some i ∧ ids.contains i = true) :
    correlated results ids = true := by
  induction results with
  | nil => rfl
  | cons m rest ih =>
    obtain ⟨hrole, i, hid, hin⟩ := h m (List.mem_cons_self _ _)
    have hin2 : i ∈ ids := List.elem_iff.mp hin
    rw [correlated]
    simp [hrole, hid, hin2, ih (fun x hx => h x (List.mem_cons_of_mem _ hx))]

theorem runTurn_appendOnly_correlated (oracle : List (Except String AssistantTurn))
    (msgs : List Message) (fs : FS) (ids : List String)
    (h : correlated msgs ids = true) :
    msgs <+: (runTurn oracle msgs fs).2.1 ∧
    correlated (runTurn oracle msgs fs).2.1 ids = true := by
  induction oracle generalizing msgs fs ids with
  | nil => exact ⟨List.prefix_refl _, h⟩
  | cons r rest ih =>
    cases r with
    | error e => exact ⟨List.prefix_refl _, h⟩
    | ok a =>
      have hmsgs1 : correlated (msgs ++ [a.toMessage]) ids = true := by
        rw [correlated_append, h]
        simp [correlated, AssistantTurn.toMessage]
      by_cases hcalls : a.tool_calls = []
      · have hrw : runTurn (.ok a :: rest) msgs fs
            = (a.content.getD "", msgs ++ [a.toMessage], fs) := by
          rw [runTurn]
          simp [hcalls]
        rw [hrw]
        exact ⟨List.prefix_append _ _, hmsgs1⟩
      · cases hpc : processCalls a.tool_calls fs with
        | mk res fs1 =>
          cases res with
          | error e =>
            have hrw : runTurn (.ok a :: rest) msgs fs
                = ("Error: " ++ e, msgs ++ [a.toMessage], fs1) := by
              rw [runTurn]
              simp [hcalls, hpc]
            rw [hrw]
            exact ⟨List.prefix_append _ _, hmsgs1⟩
          | ok results =>
            have hres := processCalls_results_toolMsgs a.tool_calls fs results fs1 hpc
            have hids : idsAfter (msgs ++ [a.toMessage]) ids
                = a.tool_calls.map (fun c => c.id) := by
              rw [idsAfter_append]
              simp [idsAfter, AssistantTurn.toMessage]
            have hcorr2 : correlated ((msgs ++ [a.toMessage]) ++ results) ids = true := by
              rw [correlated_append, hmsgs1, hids]
              refine (Bool.true_and _) ▸ correlated_of_results results _ ?_
              intro m hm
              obtain ⟨hrole, c, hcmem, hid⟩ := hres m hm
              refine ⟨hrole, c.id, hid, ?_⟩
              exact List.elem_iff.mpr (List.mem_map.mpr ⟨c, hcmem, rfl⟩)
            have hrw : runTurn (.ok a :: rest) msgs fs
                = runTurn rest ((msgs ++ [a.toMessage]) ++ results) fs1 := by
              rw [runTurn]
              simp [hcalls, hpc]
            rw [hrw]
            obtain ⟨hp, hc⟩ := ih ((msgs ++ [a.toMessage]) ++ results) fs1 ids hcorr2
            refine ⟨List.IsPrefix.trans ?_ hp, hc⟩
            rw [List.append_assoc]
            exact List.prefix_append _ _

/-- Claim C9: within one run, each `chat` turn only appends to the message
history (the history before the turn is a prefix of the history after it),
and the correlation invariant is preserved: every tool-result message in the
history carries an id among the tool-call ids of the immediately preceding
assistant message. -/
theorem c9_append_only_and_correlated (oracle : List (Except String AssistantTurn))
    (msgs : List Message) (fs : FS) (input : String) (ids : List String)
    (h : correlated msgs ids = true) :
    msgs <+: (chat oracle msgs fs input).2.1 ∧
    correlated (chat oracle msgs fs input).2.1 ids = true := by
  have h1 : correlated (msgs ++ [userMsg input]) ids = true := by
    rw [correlated_append, h]
    simp [correlated, idsAfter, userMsg]
  obtain ⟨hp, hc⟩ := runTurn_appendOnly_correlated oracle (msgs ++ [userMsg input]) fs ids h1
  exact ⟨List.IsPrefix.trans (List.prefix_append _ _) hp, hc⟩

/-- Claim C9, witness: a two-round turn with one tool call, starting from the
empty history. -/
theorem c9_append_only_and_correlated_witness :
    correlated [] [] = true ∧
    ([] <+: (chat [.ok ⟨none, [⟨"c1", "read_file", .ok [("path", "f")]⟩]⟩,
        .ok ⟨some "done", []⟩] [] ⟨[("f", "hi")], [], []⟩ "go").2.1 ∧
     correlated (chat [.ok ⟨none, [⟨"c1", "read_file", .ok [("path", "f")]⟩]⟩,
        .ok ⟨some "done", []⟩] [] ⟨[("f", "hi")], [], []⟩ "go").2.1 [] = true) :=
  ⟨by decide,
   c9_append_only_and_correlated [.ok ⟨none, [⟨"c1", "read_file", .ok [("path", "f")]⟩]⟩,
     .ok ⟨some "done", []⟩] [] ⟨[("f", "hi")], [], []⟩ "go" [] (by decide)⟩

theorem charListLe_total (a b : List Char) : charListLe a b = true ∨ charListLe b a = true := by
  induction a generalizing b with
  | nil => exact Or.inl rfl
  | cons x xs ih =>
    cases b with
    | nil => exact Or.inr rfl
    | cons y ys =>
      by_cases hxy : x = y
      · subst hxy
        rcases ih ys with h | h
        · exact Or.inl (by simpa [charListLe] using h)
        · exact Or.inr (by simpa [charListLe] using h)
      · rcases lt_or_gt_of_ne hxy with h | h
        · exact Or.inl (by simp [charListLe, hxy, h])
        · refine Or.inr ?_
          have hyx : ¬ y = x := fun hh => hxy hh.symm
          simp [charListLe, hyx, h]

theorem charListLe_trans (a b c : List Char) (h1 : charListLe a b = true)
    (h2 : charListLe b c = true) : charListLe a c = true := by
  induction a generalizing b c with
  | nil => rfl
  | cons x xs ih =>
    cases b with
    | nil => simp [charListLe] at h1
    | cons y ys =>
      cases c with
      | nil => simp [charListLe] at h2
      | cons z zs =>
        by_cases hxy : x = y
        · subst hxy
          rw [charListLe, if_pos rfl] at h1
          by_cases hyz : x = z
          · subst hyz
            rw [charListLe, if_pos rfl] at h2
            rw [charListLe, if_pos rfl]
            exact ih ys zs h1 h2
          · rw [charListLe, if_neg hyz] at h2
            rw [charListLe, if_neg hyz]
            exact h2
        · rw [charListLe, if_neg hxy] at h1
          have hxy2 : x < y := of_decide_eq_true h1
          by_cases hyz : y = z
          · subst hyz
            rw [charListLe, if_neg hxy]
            exact h1
          · rw [charListLe, if_neg hyz] at h2
            have hyz2 : y < z := of_decide_eq_true h2
            have hxz : x < z := lt_trans hxy2 hyz2
            rw [charListLe, if_neg (ne_of_lt hxz)]
            exact decide_eq_true hxz

instance : IsTotal String (fun a b => strLe a b = true) :=
  ⟨fun a b => charListLe_total a.toList b.toList⟩

instance : IsTrans String (fun a b => strLe a b = true) :=
  ⟨fun a b c => charListLe_trans a.toList b.toList c.toList⟩

/-- Claim C6: on an existing empty directory, `list_files` of
`src/tools/list_files.py` reports the explicit empty-directory message; on an
existing directory with entries it returns every entry exactly once (a
duplicate-free permutation of the directory listing), sorted
lexicographically by code point, each entry tagged as directory or file. -/
theorem c6_list_files (fs : FS) (p : String) (hdir : fs.isDir p = true) :
    (fs.listdir p = [] → list_files fs p = .ok ("Empty directory: " ++ p)) ∧
    (¬ fs.listdir p = [] → ∃ es, es.Nodup ∧ es.Perm (fs.listdir p) ∧
      List.Sorted (fun a b => strLe a b = true) es ∧
      list_files fs p = .ok ("Contents of " ++ p ++ ":\n" ++
        joinSep "\n" (es.map (fun item => entryTag fs p item)))) := by
  have hex : fs.existsPath p = true := by
    rw [FS.existsPath, hdir, Bool.or_true]
  constructor
  · intro hempty
    rw [list_files, if_neg (by simp [hex]), if_neg (by simp [hdir])]
    simp [sortStrings, hempty, List.insertionSort]
  · intro hne
    have hperm : (sortStrings (fs.listdir p)).Perm (fs.listdir p) :=
      List.perm_insertionSort _ _
    have hnodup : (fs.listdir p).Nodup := List.nodup_dedup _
    refine ⟨sortStrings (fs.listdir p), hperm.nodup_iff.mpr hnodup, hperm,
      List.sorted_insertionSort _ _, ?_⟩
    rw [list_files, if_neg (by simp [hex]), if_neg (by simp [hdir])]
    have hne2 : ¬ (sortStrings (fs.listdir p)).map (fun item => entryTag fs p item) = [] := by
      intro hnil
      have h0 : sortStrings (fs.listdir p) = [] := List.map_eq_nil_iff.mp hnil
      rw [h0] at hperm
      exact hne hperm.symm.eq_nil
    rw [if_neg hne2]

/-- Claim C6, witness: a directory holding one subdirectory and one file. -/
theorem c6_list_files_witness :
    FS.isDir ⟨[("d/b", "1")], ["d", "d/a"], []⟩ "d" = true ∧
    ((FS.listdir ⟨[("d/b", "1")], ["d", "d/a"], []⟩ "d" = [] →
      list_files ⟨[("d/b", "1")], ["d", "d/a"], []⟩ "d" = .ok "Empty directory: d") ∧
     (¬ FS.listdir ⟨[("d/b", "1")], ["d", "d/a"], []⟩ "d" = [] →
      ∃ es, es.Nodup ∧ es.Perm (FS.listdir ⟨[("d/b", "1")], ["d", "d/a"], []⟩ "d") ∧
        List.Sorted (fun a b => strLe a b = true) es ∧
        list_files ⟨[("d/b", "1")], ["d", "d/a"], []⟩ "d"
          = .ok ("Contents of d:\n" ++
            joinSep "\n" (es.map (fun item =>
              entryTag ⟨[("d/b", "1")], ["d", "d/a"], []⟩ "d" item))))) :=
  ⟨by decide, c6_list_files ⟨[("d/b", "1")], ["d", "d/a"], []⟩ "d" (by decide)⟩

theorem lookup_isSome_iff_mem_keys (l : List (String × String)) (p : String) :
    (l.lookup p).isSome = true ↔ p ∈ l.map Prod.fst := by
  induction l with
  | nil => simp
  | cons a l ih =>
    obtain ⟨k, v⟩ := a
    by_cases hk : p = k
    · subst hk
      simp [List.lookup_cons_self]
    · have hb : (p == k) = false := beq_eq_false_iff_ne.mpr hk
      simp [List.lookup_cons, hb, ih, hk]

/-- Claim C8: on an existing directory, `search_file` of
`src/tools/search_file.py` collects exactly the files below the directory
whose base name ends with the extension filter, skipping unreadable files
silently, whose decoded content contains the search text case-insensitively;
it reports the explicit no-match message when that set is empty and the
matching paths, each exactly once, otherwise.  The file table is assumed to
have no duplicate paths, as a real file system guarantees. -/
theorem c8_search_file (fs : FS) (d t ext : String)
    (hdir : fs.isDir d = true)
    (hnodup : (fs.files.map Prod.fst).Nodup) :
    (searchResults fs d t (some ext)).Nodup ∧
    (∀ p, p ∈ searchResults fs d t (some ext) ↔
      ((fs.fileContent p).isSome = true ∧
       (d ++ "/").toList.isPrefixOf p.toList = true ∧
       (ext = "" ∨ ext.toList.isSuffixOf (basename p).toList = true) ∧
       ¬ p ∈ fs.unreadable ∧
       containsSub (lowerStr t).toList (lowerStr ((fs.fileContent p).getD "")).toList = true)) ∧
    (searchResults fs d t (some ext) = [] →
      search_file fs d t (some ext)
        = "No files found containing \x27" ++ t ++ "\x27 in " ++ d) ∧
    (¬ searchResults fs d t (some ext) = [] →
      search_file fs d t (some ext)
        = "Files containing \x27" ++ t ++ "\x27:\n"
          ++ joinSep "\n" (searchResults fs d t (some ext))) := by
  have hex : fs.existsPath d = true := by
    rw [FS.existsPath, hdir, Bool.or_true]
  refine ⟨?_, ?_, ?_, ?_⟩
  · exact ((hnodup.filter _).filter _)
  · intro p
    rw [searchResults, FS.walkFiles, List.mem_filter, List.mem_filter,
      searchMatch, ← lookup_isSome_iff_mem_keys]
    simp [FS.fileContent, and_assoc]
  · intro hempty
    rw [search_file, if_neg (by simp [hex]), if_neg (by simp [hdir])]
    rw [if_pos hempty]
  · intro hne
    rw [search_file, if_neg (by simp [hex]), if_neg (by simp [hdir])]
    rw [if_neg hne]

/-- Claim C8, witness: two `.py` files under `d`, a text file outside the
extension filter and an unreadable `.py` file; the theorem applies and in
particular characterises the matching set. -/
theorem c8_search_file_witness :
    FS.isDir ⟨[("d/a.py", "Hello"), ("d/b.py", "world"), ("d/c.txt", "hello"),
        ("d/u.py", "hello")], ["d"], ["d/u.py"]⟩ "d" = true ∧
    (List.map Prod.fst (FS.files ⟨[("d/a.py", "Hello"), ("d/b.py", "world"),
        ("d/c.txt", "hello"), ("d/u.py", "hello")], ["d"], ["d/u.py"]⟩)).Nodup ∧
    ((searchResults ⟨[("d/a.py", "Hello"), ("d/b.py", "world"), ("d/c.txt", "hello"),
        ("d/u.py", "hello")], ["d"], ["d/u.py"]⟩ "d" "HELLO" (some ".py")).Nodup ∧
     (∀ p, p ∈ searchResults ⟨[("d/a.py", "Hello"), ("d/b.py", "world"), ("d/c.txt", "hello"),
        ("d/u.py", "hello")], ["d"], ["d/u.py"]⟩ "d" "HELLO" (some ".py") ↔
       ((FS.fileContent ⟨[("d/a.py", "Hello"), ("d/b.py", "world"), ("d/c.txt", "hello"),
          ("d/u.py", "hello")], ["d"], ["d/u.py"]⟩ p).isSome = true ∧
        ("d" ++ "/").toList.isPrefixOf p.toList = true ∧
        (".py" = "" ∨ ".py".toList.isSuffixOf (basename p).toList = true) ∧
        ¬ p ∈ FS.unreadable ⟨[("d/a.py", "Hello"), ("d/b.py", "world"), ("d/c.txt", "hello"),
          ("d/u.py", "hello")], ["d"], ["d/u.py"]⟩ ∧
        containsSub (lowerStr "HELLO").toList
          (lowerStr ((FS.fileContent ⟨[("d/a.py", "Hello"), ("d/b.py", "world"),
            ("d/c.txt", "hello"), ("d/u.py", "hello")], ["d"], ["d/u.py"]⟩ p).getD
            "")).toList = true)) ∧
     (searchResults ⟨[("d/a.py", "Hello"), ("d/b.py", "world"), ("d/c.txt", "hello"),
        ("d/u.py", "hello")], ["d"], ["d/u.py"]⟩ "d" "HELLO" (some ".py") = [] →
      search_file ⟨[("d/a.py", "Hello"), ("d/b.py", "world"), ("d/c.txt", "hello"),
        ("d/u.py", "hello")], ["d"], ["d/u.py"]⟩ "d" "HELLO" (some ".py")
        = "No files found containing \x27HELLO\x27 in d") ∧
     (¬ searchResults ⟨[("d/a.py", "Hello"), ("d/b.py", "world"), ("d/c.txt", "hello"),
        ("d/u.py", "hello")], ["d"], ["d/u.py"]⟩ "d" "HELLO" (some ".py") = [] →
      search_file ⟨[("d/a.py", "Hello"), ("d/b.py", "world"), ("d/c.txt", "hello"),
        ("d/u.py", "hello")], ["d"], ["d/u.py"]⟩ "d" "HELLO" (some ".py")
        = "Files containing \x27HELLO\x27:\n"
          ++ joinSep "\n" (searchResults ⟨[("d/a.py", "Hello"), ("d/b.py", "world"),
            ("d/c.txt", "hello"), ("d/u.py", "hello")], ["d"], ["d/u.py"]⟩ "d" "HELLO"
            (some ".py")))) :=
  ⟨by decide, by decide,
   c8_search_file ⟨[("d/a.py", "Hello"), ("d/b.py", "world"), ("d/c.txt", "hello"),
     ("d/u.py", "hello")], ["d"], ["d/u.py"]⟩ "d" "HELLO" ".py" (by decide) (by decide)⟩
